import Mathlib

/-!
Shallow embedding of `IPython/core/history.py` (session-oriented command
history store): the range mini-language parser (`range_re`,
`extract_hist_ranges`), and the `HistoryManager` state machine
(in-memory current-session buffers, the write-back cache
`db_input_cache`/`db_output_cache`, and the sqlite-backed persistent
store, modelled as lists of rows with the `(session, line)` primary-key
constraint of the `history` and `output_history` tables).
-/

/-! ## Python string helpers -/

/-- The characters Python's `str.strip` / `str.split()` treat as whitespace
(ASCII part; sufficient for this development). -/
def pySpaceChars : List Char := [' ', '\t', '\n', '\r', '\x0b', '\x0c']

def pyIsSpace (c : Char) : Bool := pySpaceChars.contains c

/-- Python `str.rstrip()`. -/
def pyRstrip (s : String) : String :=
  String.mk ((s.data.reverse.dropWhile pyIsSpace).reverse)

/-- Python `str.strip()`. -/
def pyStrip (s : String) : String :=
  String.mk (((s.data.dropWhile pyIsSpace).reverse.dropWhile pyIsSpace).reverse)

/-- Worker for `pyTokens`: walk the characters, accumulating the current
token in reverse; whitespace ends a token, empty tokens are dropped. -/
def tokensAux : List Char → List Char → List String
  | [], acc => if acc.isEmpty then [] else [String.mk acc.reverse]
  | c :: cs, acc =>
    if pyIsSpace c then
      if acc.isEmpty then tokensAux cs []
      else String.mk acc.reverse :: tokensAux cs []
    else tokensAux cs (c :: acc)

/-- Python `str.split()` with no argument: whitespace-separated tokens,
empty tokens dropped. -/
def pyTokens (s : String) : List String := tokensAux s.data []

/-- `range(a, b)` over Python ints. -/
def pyRange (a b : Int) : List Int :=
  (List.range (b - a).toNat).map (fun (i : Nat) => a + (i : Int))

/-! ## The range mini-language parser

`range_re = ((?P<startsess>~?\d+)/)? (?P<start>\d+)
            ((?P<sep>[-:]) ((?P<endsess>~?\d+)/)? (?P<end>\d+))?`
applied with `re.match` (anchored at the start of the token only; trailing
unmatched characters are ignored).  The hand-rolled parser below reproduces
the regex's leftmost-greedy backtracking behaviour; the group values
`startsess`/`endsess` are kept as signed integers, folding the source's
`int(group.replace("~", "-"))` conversion into the parse. -/

def natOfDigits (ds : List Char) : Nat :=
  ds.foldl (fun a c => 10 * a + (c.toNat - 48)) 0

/-- `\d+`, greedy: one or more digits, returning the value and the rest. -/
def parseDigits (cs : List Char) : Option (Nat × List Char) :=
  let ds := cs.takeWhile Char.isDigit
  if ds.isEmpty then none
  else some (natOfDigits ds, cs.drop ds.length)

/-- `(~?\d+)/`, i.e. one `(?P<...sess>~?\d+)/` group: an optional tilde
(meaning negative), digits, then a slash. -/
def trySessTag (cs : List Char) : Option (Int × List Char) :=
  let p : Bool × List Char :=
    match cs with
    | '~' :: rest => (true, rest)
    | _ => (false, cs)
  match parseDigits p.2 with
  | some (n, '/' :: rest) => some (if p.1 then -(n : Int) else (n : Int), rest)
  | _ => none

/-- The tail of the optional separator group: `((?P<endsess>~?\d+)/)?
(?P<end>\d+)`.  If the session tag matches but no digits follow it, the
regex backtracks to not using the tag. -/
def parseSepTail (cs : List Char) : Option (Option Int × Nat) :=
  match trySessTag cs with
  | some (v, rest) =>
    match parseDigits rest with
    | some (e, _) => some (some v, e)
    | none =>
      match parseDigits cs with
      | some (e, _) => some (none, e)
      | none => none
  | none =>
    match parseDigits cs with
    | some (e, _) => some (none, e)
    | none => none

/-- The named groups of a successful `range_re.match`:
`startsess`, `start`, `sep`, `endsess`, `end` (here `ends`). -/
structure RangeMatch where
  startsess : Option Int
  start : Nat
  sep : Option Char
  endsess : Option Int
  ends : Option Nat
deriving DecidableEq, Repr

/-- After the optional start-session tag: `(?P<start>\d+)` then the optional
`(sep (endsess/)? end)` group.  Fails only when `start` has no digits. -/
def matchAfterStart (osess : Option Int) (cs : List Char) : Option RangeMatch :=
  match parseDigits cs with
  | none => none
  | some (st, rest) =>
    match rest with
    | c :: rest2 =>
      if c = '-' ∨ c = ':' then
        match parseSepTail rest2 with
        | some (oes, e) => some ⟨osess, st, some c, oes, some e⟩
        | none => some ⟨osess, st, none, none, none⟩
      else some ⟨osess, st, none, none, none⟩
    | [] => some ⟨osess, st, none, none, none⟩

/-- `range_re.match` on one token: try the start-session tag first (greedy);
if the mandatory `start` digits then fail, backtrack to no tag. -/
def parseToken (cs : List Char) : Option RangeMatch :=
  match trySessTag cs with
  | some (v, rest) =>
    match matchAfterStart (some v) rest with
    | some m => some m
    | none => matchAfterStart none cs
  | none => matchAfterStart none cs

def rangeMatch (t : String) : Option RangeMatch := parseToken t.data

/-- Lines 377–395 of the source, for one matched token: compute `end`
(defaulting to `start+1`, plus one more for the inclusive `-` separator),
default the sessions (`startsess` to 0, `endsess` to `startsess`), run
`assert endsess >= startsess` (modelled as `Except.error`), and yield the
triple(s).  A multi-session token expands to the rest of session A, every
whole session strictly between, and the head of session B. -/
def tokenTriples (m : RangeMatch) : Except Unit (List (Int × Nat × Option Nat)) :=
  let e0 : Nat :=
    match m.ends with
    | some e => e
    | none => m.start + 1
  let e1 : Nat := if m.sep = some '-' then e0 + 1 else e0
  let startsess : Int := m.startsess.getD 0
  let endsess : Int := m.endsess.getD startsess
  if endsess < startsess then Except.error ()
  else if endsess = startsess then Except.ok [(startsess, m.start, some e1)]
  else Except.ok ((startsess, m.start, none) ::
    (pyRange (startsess + 1) endsess).map (fun s => (s, 1, none)) ++
    [(endsess, 1, some e1)])

/-- The token loop of `extract_hist_ranges`: non-matching tokens are
skipped (`continue`), a failed assertion aborts the whole call. -/
def extractTokens : List String → Except Unit (List (Int × Nat × Option Nat))
  | [] => Except.ok []
  | t :: ts =>
    match rangeMatch t with
    | none => extractTokens ts
    | some m =>
      match tokenTriples m with
      | Except.error e => Except.error e
      | Except.ok l =>
        match extractTokens ts with
        | Except.error e => Except.error e
        | Except.ok l2 => Except.ok (l ++ l2)

/-- `extract_hist_ranges(ranges_str)`, with the generator consumed eagerly:
the result is either the full list of `(session, start, stop)` triples or
the `AssertionError` raised on an inverted multi-session range. -/
def extract_hist_ranges (s : String) : Except Unit (List (Int × Nat × Option Nat)) :=
  extractTokens (pyTokens s)


/-! ## The persistent store

The sqlite tables `history(session, line, source, source_raw)` and
`output_history(session, line, output)`, both with primary key
`(session, line)`, are modelled as lists of rows in insertion order; an
`INSERT` violating the primary key fails (returns `none`), and a failed
statement inside a `with self.db:` block rolls the whole transaction
back.  The `sessions` table is modelled by its autoincrement counter
`next_session`, which is all the claims here depend on. -/

structure HistRow where
  session : Int
  line : Int
  source : String
  source_raw : String
deriving DecidableEq, Repr

structure OutRow where
  session : Int
  line : Int
  output : String
deriving DecidableEq, Repr

structure DB where
  history : List HistRow
  output_history : List OutRow
  next_session : Int
deriving DecidableEq, Repr

/-- One `INSERT INTO history VALUES (?,?,?,?)`: fails on a
`(session, line)` primary-key conflict. -/
def insertHist (tbl : List HistRow) (r : HistRow) : Option (List HistRow) :=
  if tbl.any (fun x => x.session == r.session && x.line == r.line) then none
  else some (tbl ++ [r])

/-- `executemany` over the input rows: sequential inserts, the first
failure aborts. -/
def insertAllHist : List HistRow → List HistRow → Option (List HistRow)
  | tbl, [] => some tbl
  | tbl, r :: rs =>
    match insertHist tbl r with
    | none => none
    | some t => insertAllHist t rs

/-- One `INSERT INTO output_history VALUES (?,?,?)`. -/
def insertOut (tbl : List OutRow) (r : OutRow) : Option (List OutRow) :=
  if tbl.any (fun x => x.session == r.session && x.line == r.line) then none
  else some (tbl ++ [r])

/-- `executemany` over the output rows. -/
def insertAllOut : List OutRow → List OutRow → Option (List OutRow)
  | tbl, [] => some tbl
  | tbl, r :: rs =>
    match insertOut tbl r with
    | none => none
    | some t => insertAllOut t rs

/-! ## The history manager -/

/-- The mutable state of a `HistoryManager`, together with the slice of
the shell the manager writes to (`user_ns`, standing for
`self.shell.user_ns`).  `db_cache_size` is the config value, `session_number`
the current session id, `input_hist_parsed`/`input_hist_raw` the
current-session buffers (seeded with one empty entry so line `n` lives at
position `n`), `db_input_cache`/`db_output_cache` the write-back cache. -/
structure HistoryManager where
  input_hist_parsed : List String
  input_hist_raw : List String
  session_number : Int
  db : DB
  db_cache_size : Int
  db_input_cache : List HistRow
  db_output_cache : List OutRow
  _i00 : String
  _i : String
  _ii : String
  _iii : String
  user_ns : List (String × String)
deriving DecidableEq, Repr

/-- `self._exit_commands` (source lines 102–103). -/
def exit_commands : List String :=
  ["Quit", "quit", "Exit", "exit", "%Quit", "%quit", "%Exit", "%exit"]

/-- Overwrite-or-append one binding in the user namespace. -/
def nsSet (ns : List (String × String)) (k v : String) : List (String × String) :=
  if ns.any (fun p => p.1 == k) then
    ns.map (fun p => if p.1 == k then (k, v) else p)
  else ns ++ [(k, v)]

/-- `self.shell.user_ns.update(to_main)`. -/
def nsUpdate (ns : List (String × String)) (kvs : List (String × String)) :
    List (String × String) :=
  kvs.foldl (fun a kv => nsSet a kv.1 kv.2) ns

/-- `new_session`: insert a sessions row, take its autoincrement id as the
current session number. -/
def new_session (h : HistoryManager) : HistoryManager :=
  { h with session_number := h.db.next_session,
           db := { h.db with next_session := h.db.next_session + 1 } }

/-- A manager as `__init__` leaves it on a fresh database (empty tables,
seeded buffers, empty caches, one open session, given `db_cache_size`). -/
def initHM (cache_size : Int) : HistoryManager :=
  new_session
    { input_hist_parsed := [""], input_hist_raw := [""], session_number := 0,
      db := ⟨[], [], 1⟩, db_cache_size := cache_size,
      db_input_cache := [], db_output_cache := [],
      _i00 := "", _i := "", _ii := "", _iii := "", user_ns := [] }

/-- `writeout_cache` (source lines 345–353): inside one `with self.db:`
transaction, batch-insert both caches; on success clear them, on failure
the transaction is rolled back, the exception propagates (`false`) and —
the two clearing assignments being unreached — both caches survive. -/
def writeout_cache (h : HistoryManager) : HistoryManager × Bool :=
  match insertAllHist h.db.history h.db_input_cache with
  | none => (h, false)
  | some hist2 =>
    match insertAllOut h.db.output_history h.db_output_cache with
    | none => (h, false)
    | some out2 =>
      ({ h with db := { h.db with history := hist2, output_history := out2 },
                db_input_cache := [], db_output_cache := [] }, true)

/-- Source lines 311–315 of `store_inputs`: append the right-stripped
sources to the current-session buffers and the unstripped row (tagged with
the current session number) to the write-back cache. -/
def cacheRow (h : HistoryManager) (line_num : Int) (source source_raw : String) :
    HistoryManager :=
  { h with
    input_hist_parsed := h.input_hist_parsed ++ [pyRstrip source],
    input_hist_raw := h.input_hist_raw ++ [pyRstrip source_raw],
    db_input_cache := h.db_input_cache ++
      [⟨h.session_number, line_num, source, source_raw⟩] }

/-- Source lines 317–318 of `store_inputs`: flush when the cache has
reached `db_cache_size` rows (a size ≤ 1 flushes on every append). -/
def maybeFlush (h : HistoryManager) : HistoryManager × Bool :=
  if h.db_cache_size ≤ (h.db_input_cache.length : Int) then writeout_cache h
  else (h, true)

/-- Source lines 321–332 of `store_inputs`: rotate the `_i*` auto
variables (sequential assignments, all reading pre-rotation values) and
push `_i`, `_ii`, `_iii`, `_i<line_num>` into the user namespace. -/
def rotateAndBind (h : HistoryManager) (line_num : Int) (source_raw : String) :
    HistoryManager :=
  let h3 : HistoryManager :=
    { h with _i00 := source_raw, _i := h._i00, _ii := h._i, _iii := h._ii }
  let to_main : List (String × String) :=
    [("_i", h3._i), ("_ii", h3._ii), ("_iii", h3._iii),
     ("_i" ++ toString line_num, h3._i00)]
  { h3 with user_ns := nsUpdate h3.user_ns to_main }

/-- `store_inputs(line_num, source, source_raw=None)` (source lines
288–332).  An input whose stripped raw source is an exit command is not
stored at all.  Returns the state reached together with `false` when an
exception from the cache flush propagated out of the call (in which case
the buffer/cache appends have already happened but the `_i*` rotation and
namespace update have not). -/
def store_inputs (h : HistoryManager) (line_num : Int) (source : String)
    (sourceRawOpt : Option String) : HistoryManager × Bool :=
  let source_raw := sourceRawOpt.getD source
  if exit_commands.contains (pyStrip source_raw) then (h, true)
  else
    match maybeFlush (cacheRow h line_num source source_raw) with
    | (h2, false) => (h2, false)
    | (h2, true) => (rotateAndBind h2 line_num source_raw, true)

/-- `_get_hist_session(start, stop)` (source lines 215–234): serve from the
in-memory buffers; a negative `start`/`stop` is adjusted by the buffer
length, a falsy `stop` (`None` or `0`) becomes the buffer length. -/
def _get_hist_session (h : HistoryManager) (start : Int) (stop : Option Int)
    (raw : Bool) : List (Int × Int × String) :=
  let input_hist := if raw then h.input_hist_raw else h.input_hist_parsed
  let n : Int := input_hist.length
  let start2 := if start < 0 then start + n else start
  let stop2 : Int :=
    match stop with
    | none => n
    | some s => if s = 0 then n else if s < 0 then s + n else s
  (pyRange start2 stop2).map (fun i => (0, i, (input_hist[i.toNat]?).getD ""))

/-- The `SELECT session, line, source[_raw] FROM history WHERE session==?
AND line>=? [AND line < ?]` query issued by `get_history` for a past
session; rows come back in insertion order. -/
def queryHistory (db : DB) (sess start : Int) (stopC : Option Int) (raw : Bool) :
    List (Int × Int × String) :=
  (db.history.filter (fun r =>
      r.session == sess && decide (start ≤ r.line) &&
      (match stopC with
       | none => true
       | some st => decide (r.line < st)))).map
    (fun r => (r.session, r.line, if raw then r.source_raw else r.source))

/-- `get_history(session=0, start=1, stop=None, raw=True)` (source lines
236–276): the current session (0 or the live id) is served from the
in-memory buffers; otherwise a negative session is resolved against the
live id and the persistent store is queried — with no cache flush
beforehand.  A falsy `stop` omits the upper line bound. -/
def get_history (h : HistoryManager) (session : Int) (start : Int)
    (stop : Option Int) (raw : Bool) : List (Int × Int × String) :=
  if session = 0 ∨ session = h.session_number then
    _get_hist_session h start stop raw
  else
    let sess := if session < 0 then session + h.session_number else session
    let stopC : Option Int :=
      match stop with
      | none => none
      | some s => if s = 0 then none else some s
    queryHistory h.db sess start stopC raw

/-- Drive `store_inputs` over a list of `(line_num, source, source_raw)`
rows, stopping if an exception propagates. -/
def storeMany (h : HistoryManager) :
    List (Int × String × String) → HistoryManager × Bool
  | [] => (h, true)
  | x :: rest =>
    match store_inputs h x.1 x.2.1 (some x.2.2) with
    | (h2, true) => storeMany h2 rest
    | (h2, false) => (h2, false)

/-! ## Theorems: the range parser -/

lemma tokenTriples_error_of_inverted (m : RangeMatch)
    (hbad : m.endsess.getD (m.startsess.getD 0) < m.startsess.getD 0) :
    tokenTriples m = Except.error () := by
  unfold tokenTriples
  simp only [if_pos hbad]

lemma extractTokens_error_of_mem (ts : List String) (t : String) (m : RangeMatch)
    (ht : t ∈ ts) (hm : rangeMatch t = some m)
    (hbad : m.endsess.getD (m.startsess.getD 0) < m.startsess.getD 0) :
    extractTokens ts = Except.error () := by
  induction ts with
  | nil => cases ht
  | cons a as ih =>
    rcases List.mem_cons.mp ht with rfl | hmem
    · simp only [extractTokens, hm, tokenTriples_error_of_inverted m hbad]
    · have herr := ih hmem
      simp only [extractTokens, herr]
      cases hma : rangeMatch a with
      | none => rfl
      | some m2 =>
        cases htt : tokenTriples m2 with
        | error e => cases e; simp [htt]
        | ok l => simp [htt]

/-- C3: a range string containing a multi-session token whose end session
precedes its start session (in signed-offset space, before resolution
against the current session number) makes `extract_hist_ranges` fail as a
whole with the assertion error: the call produces no triples at all. -/
theorem extract_hist_ranges_inverted_session_fatal (s t : String) (m : RangeMatch)
    (ht : t ∈ pyTokens s) (hm : rangeMatch t = some m)
    (hbad : m.endsess.getD (m.startsess.getD 0) < m.startsess.getD 0) :
    extract_hist_ranges s = Except.error () :=
  extractTokens_error_of_mem (pyTokens s) t m ht hm hbad

/-- C3 witness: `"1-2 5/3-2/4"` has the inverted token `5/3-2/4`
(sessions 5 to 2), and the whole call errors although the first token is
well formed. -/
theorem extract_hist_ranges_inverted_session_fatal_witness :
    extract_hist_ranges "1-2 5/3-2/4" = Except.error () :=
  extract_hist_ranges_inverted_session_fatal "1-2 5/3-2/4" "5/3-2/4"
    ⟨some 5, 3, some '-', some 2, some 4⟩ (by decide) (by decide) (by decide)

/-- C4: a whitespace-separated token that does not match the range grammar
is silently skipped: wherever it sits in the token list, it contributes no
triple and raises nothing, and the tokens around it are processed exactly
as if it were absent. -/
theorem extract_hist_ranges_skips_unmatched (pre post : List String) (t : String)
    (hm : rangeMatch t = none) :
    extractTokens (pre ++ t :: post) = extractTokens (pre ++ post) := by
  induction pre with
  | nil => simp only [List.nil_append, extractTokens, hm]
  | cons a as ih =>
    simp only [List.cons_append, extractTokens, List.append_eq]
    rw [ih]

/-- C4 witness: the malformed token `x-y` between two well-formed tokens
is dropped without affecting them. -/
theorem extract_hist_ranges_skips_unmatched_witness :
    extractTokens (["5"] ++ "x-y" :: ["2:4"]) = extractTokens (["5"] ++ ["2:4"]) :=
  extract_hist_ranges_skips_unmatched ["5"] ["2:4"] "x-y" (by decide)

/-- C5: single-session tokens.  A bare start (no separator) selects the
one line `[start, start+1)`; separator `:` keeps the half-open `[start,
end)`; separator `-` is inclusive, normalised to `[start, end+1)`; an
omitted start session defaults to 0 and an omitted end session to the
start session (both via `Option.getD` below); and the concrete examples —
including the `~` negative-offset prefix — evaluate as the spec lists. -/
theorem extract_hist_ranges_single_session_forms :
    (∀ m : RangeMatch, m.sep = none → m.ends = none → m.endsess = none →
       tokenTriples m =
         Except.ok [(m.startsess.getD 0, m.start, some (m.start + 1))]) ∧
    (∀ (m : RangeMatch) (e : Nat), m.sep = some ':' → m.ends = some e →
       m.endsess.getD (m.startsess.getD 0) = m.startsess.getD 0 →
       tokenTriples m = Except.ok [(m.startsess.getD 0, m.start, some e)]) ∧
    (∀ (m : RangeMatch) (e : Nat), m.sep = some '-' → m.ends = some e →
       m.endsess.getD (m.startsess.getD 0) = m.startsess.getD 0 →
       tokenTriples m = Except.ok [(m.startsess.getD 0, m.start, some (e + 1))]) ∧
    extract_hist_ranges "5" = Except.ok [(0, 5, some 6)] ∧
    extract_hist_ranges "1-3" = Except.ok [(0, 1, some 4)] ∧
    extract_hist_ranges "2:4" = Except.ok [(0, 2, some 4)] ∧
    extract_hist_ranges "~2/3-5" = Except.ok [(-2, 3, some 6)] := by
  refine ⟨?_, ?_, ?_, rfl, rfl, rfl, rfl⟩
  · intro m hsep hends hes
    simp [tokenTriples, hsep, hends, hes]
  · intro m e hsep hends hes
    simp [tokenTriples, hsep, hends, hes]
  · intro m e hsep hends hes
    simp [tokenTriples, hsep, hends, hes]

/-- C5 witness: the bare-start form applied at the concrete match of the
token `7/9` (session 7, line 9). -/
theorem extract_hist_ranges_single_session_forms_witness :
    tokenTriples ⟨some 7, 9, none, none, none⟩ = Except.ok [(7, 9, some 10)] :=
  extract_hist_ranges_single_session_forms.1 ⟨some 7, 9, none, none, none⟩ rfl rfl rfl

lemma mem_pyRange (a b s : Int) : s ∈ pyRange a b ↔ a ≤ s ∧ s < b := by
  simp only [pyRange, List.mem_map, List.mem_range]
  constructor
  · rintro ⟨i, hi, rfl⟩
    omega
  · rintro ⟨h1, h2⟩
    exact ⟨(s - a).toNat, by omega, by omega⟩

lemma pyRange_sorted (a b : Int) : (pyRange a b).Pairwise (· < ·) := by
  unfold pyRange
  exact List.Pairwise.map _ (fun i j h => by omega) (List.pairwise_lt_range _)

/-- C6: a token whose resolved end session strictly exceeds its start
session (in signed-offset space) expands to exactly: the rest of session A
from `start`, an unbounded `(s, 1, None)` selector for each `s` in
`range(startsess+1, endsess)` — which contains precisely the sessions
strictly between A and B, in strictly increasing order — and finally the
head of session B up to the computed end line. -/
theorem extract_hist_ranges_multi_session_expansion (m : RangeMatch)
    (hlt : m.startsess.getD 0 < m.endsess.getD (m.startsess.getD 0)) :
    tokenTriples m = Except.ok ((m.startsess.getD 0, m.start, none) ::
      (pyRange (m.startsess.getD 0 + 1)
          (m.endsess.getD (m.startsess.getD 0))).map (fun s => (s, 1, none)) ++
      [(m.endsess.getD (m.startsess.getD 0), 1,
        some (if m.sep = some '-' then m.ends.getD (m.start + 1) + 1
              else m.ends.getD (m.start + 1)))]) ∧
    (∀ s : Int,
       s ∈ pyRange (m.startsess.getD 0 + 1) (m.endsess.getD (m.startsess.getD 0)) ↔
       m.startsess.getD 0 < s ∧ s < m.endsess.getD (m.startsess.getD 0)) ∧
    (pyRange (m.startsess.getD 0 + 1)
        (m.endsess.getD (m.startsess.getD 0))).Pairwise (· < ·) := by
  have hne : m.endsess.getD (m.startsess.getD 0) ≠ m.startsess.getD 0 :=
    fun hcon => absurd (hcon ▸ hlt) (lt_irrefl _)
  have hnlt : ¬ m.endsess.getD (m.startsess.getD 0) < m.startsess.getD 0 :=
    not_lt_of_gt hlt
  refine ⟨?_, ?_, pyRange_sorted _ _⟩
  · simp only [tokenTriples]
    rw [if_neg hnlt, if_neg hne]
    cases hends : m.ends <;> rfl
  · intro s
    rw [mem_pyRange]
    omega

/-- C6 witness: `~8/5-~5/4` (sessions −8 through −5, inclusive `-`
separator, end line 4+1) expands to the four selectors in order. -/
theorem extract_hist_ranges_multi_session_expansion_witness :
    tokenTriples ⟨some (-8), 5, some '-', some (-5), some 4⟩ =
      Except.ok [(-8, 5, none), (-7, 1, none), (-6, 1, none), (-5, 1, some 5)] := by
  rw [(extract_hist_ranges_multi_session_expansion
    ⟨some (-8), 5, some '-', some (-5), some 4⟩ (by decide)).1]
  rfl

/-! ## Theorems: the history manager -/

/-- C10: `stop = 0` is falsy in Python, so both query paths of
`get_history` treat it exactly like `stop = None` (unbounded) instead of
as the empty range `[start, 0)`: the in-memory path substitutes the buffer
length, the store path omits the upper line bound; consequently, for a
non-negative `start`, the current-session call returns one row per line
number from `start` to the end of the buffer. -/
theorem get_history_stop_zero_unbounded (h : HistoryManager)
    (session start : Int) (raw : Bool) :
    get_history h session start (some 0) raw =
      get_history h session start none raw ∧
    (0 ≤ start →
      (get_history h 0 start (some 0) raw).map (fun t => t.2.1) =
        pyRange start
          ((if raw then h.input_hist_raw else h.input_hist_parsed).length)) := by
  constructor
  · unfold get_history
    by_cases hc : session = 0 ∨ session = h.session_number
    · rw [if_pos hc, if_pos hc]
      unfold _get_hist_session
      simp
    · rw [if_neg hc, if_neg hc]
      rfl
  · intro hstart
    unfold get_history _get_hist_session
    rw [if_pos (Or.inl rfl)]
    dsimp only
    rw [if_neg (not_lt.mpr hstart), if_pos (rfl : (0 : Int) = 0)]
    simp only [List.map_map]
    have hcomp : ((fun (t : Int × Int × String) => t.2.1) ∘ fun i =>
        ((0 : Int), i,
         ((if raw = true then h.input_hist_raw else h.input_hist_parsed)[i.toNat]?.getD ""))) =
        fun i => i := rfl
    rw [hcomp]
    exact List.map_id' _

/-- C10 witness: on a fresh manager, `stop = 0` equals `stop = None` on
both the in-memory path (session 0) and the store path (session 1 is not
current on a state whose live session this is not). -/
theorem get_history_stop_zero_unbounded_witness :
    get_history (initHM 0) 1 1 (some 0) true =
      get_history (initHM 0) 1 1 none true ∧
    (get_history (initHM 0) 0 1 (some 0) true).map (fun t => t.2.1) =
      pyRange 1 ((if true then (initHM 0).input_hist_raw
                  else (initHM 0).input_hist_parsed).length) :=
  ⟨(get_history_stop_zero_unbounded (initHM 0) 1 1 true).1,
   (get_history_stop_zero_unbounded (initHM 0) 1 1 true).2 (by decide)⟩

/-- C7: storing an input whose stripped raw source is one of the eight
case-sensitive exit/quit variants is a complete no-op — the returned state
is the argument state itself (buffers, cache, `_i*` auto variables and
user-namespace bindings all untouched) and no error is raised. -/
theorem store_inputs_ignored_noop (h : HistoryManager) (line_num : Int)
    (source : String) (sourceRawOpt : Option String)
    (hig : exit_commands.contains (pyStrip (sourceRawOpt.getD source)) = true) :
    store_inputs h line_num source sourceRawOpt = (h, true) := by
  unfold store_inputs
  simp [hig]
  intro hc
  exact absurd (by simpa using hig) hc

/-- C7 witness: `" %quit \n"` (an ignored command once stripped) is
dropped on a fresh manager. -/
theorem store_inputs_ignored_noop_witness :
    store_inputs (initHM 0) 7 "x = 1" (some " %quit \n") = (initHM 0, true) :=
  store_inputs_ignored_noop (initHM 0) 7 "x = 1" (some " %quit \n") (by decide)

/-- C8: the write-back-cache flush.  (i) With both caches empty the flush
is a no-op on the whole state (in particular on the store) and succeeds;
(ii) a successful flush leaves both caches empty; (iii) a failed batch
insert rolls the transaction back and leaves the entire state — store and
both caches — exactly as it was, so the buffered rows remain for retry. -/
theorem writeout_cache_contract (h : HistoryManager) :
    (h.db_input_cache = [] → h.db_output_cache = [] →
       writeout_cache h = (h, true)) ∧
    (∀ h2 : HistoryManager, writeout_cache h = (h2, true) →
       h2.db_input_cache = [] ∧ h2.db_output_cache = []) ∧
    (∀ h2 : HistoryManager, writeout_cache h = (h2, false) → h2 = h) := by
  refine ⟨?_, ?_, ?_⟩
  · intro hin hout
    cases h with
    | mk f1 f2 f3 db f5 f6 f7 f8 f9 f10 f11 f12 =>
      cases db with
      | mk d1 d2 d3 =>
        simp only at hin hout
        subst hin
        subst hout
        rfl
  · intro h2 heq
    unfold writeout_cache at heq
    cases hA : insertAllHist h.db.history h.db_input_cache with
    | none => rw [hA] at heq; simp at heq
    | some t1 =>
      rw [hA] at heq
      cases hB : insertAllOut h.db.output_history h.db_output_cache with
      | none => rw [hB] at heq; simp at heq
      | some t2 =>
        rw [hB] at heq
        have := (Prod.mk.injEq _ _ _ _).mp heq
        rw [← this.1]
        exact ⟨rfl, rfl⟩
  · intro h2 heq
    unfold writeout_cache at heq
    cases hA : insertAllHist h.db.history h.db_input_cache with
    | none =>
      rw [hA] at heq
      have := (Prod.mk.injEq _ _ _ _).mp heq
      exact this.1.symm
    | some t1 =>
      rw [hA] at heq
      cases hB : insertAllOut h.db.output_history h.db_output_cache with
      | none =>
        rw [hB] at heq
        have := (Prod.mk.injEq _ _ _ _).mp heq
        exact this.1.symm
      | some t2 => rw [hB] at heq; simp at heq

/-- C8 witness: a flush on a fresh manager (both caches empty) is a
successful no-op. -/
theorem writeout_cache_contract_witness :
    writeout_cache (initHM 5) = (initHM 5, true) :=
  (writeout_cache_contract (initHM 5)).1 rfl rfl

/-- C1: `get_history` does not flush the write-back cache before querying
the persistent store.  On a fresh manager with a large cache threshold,
store line 1 of session 1, then open a new session (as `new_session` does,
without flushing): the stored row still sits in `db_input_cache`, and the
past-session query `get_history(session=1, start=1)` returns nothing —
although the row matches the query filter and a preceding flush (as the
spec prescribes) would have made it visible, as the last conjunct shows. -/
theorem get_history_no_flush_divergence :
    get_history (new_session (store_inputs (initHM 100) 1 "a" none).1) 1 1 none true
      = [] ∧
    (new_session (store_inputs (initHM 100) 1 "a" none).1).db_input_cache
      = [⟨1, 1, "a", "a"⟩] ∧
    (writeout_cache (new_session (store_inputs (initHM 100) 1 "a" none).1)).1.db.history
      = [⟨1, 1, "a", "a"⟩] := by
  refine ⟨rfl, rfl, rfl⟩

lemma writeout_cache_keeps_buffers (h : HistoryManager) :
    ((writeout_cache h).1).input_hist_raw = h.input_hist_raw ∧
    ((writeout_cache h).1).input_hist_parsed = h.input_hist_parsed := by
  unfold writeout_cache
  cases hA : insertAllHist h.db.history h.db_input_cache with
  | none => exact ⟨rfl, rfl⟩
  | some t1 =>
    cases hB : insertAllOut h.db.output_history h.db_output_cache with
    | none => exact ⟨rfl, rfl⟩
    | some t2 => exact ⟨rfl, rfl⟩

lemma maybeFlush_keeps_buffers (h : HistoryManager) :
    ((maybeFlush h).1).input_hist_raw = h.input_hist_raw ∧
    ((maybeFlush h).1).input_hist_parsed = h.input_hist_parsed := by
  unfold maybeFlush
  by_cases hc : h.db_cache_size ≤ (h.db_input_cache.length : Int)
  · rw [if_pos hc]
    exact writeout_cache_keeps_buffers h
  · rw [if_neg hc]
    exact ⟨rfl, rfl⟩

/-- A non-ignored `store_inputs` appends exactly the right-stripped raw
and processed sources to the in-memory buffers, on the success path and on
the flush-failure path alike. -/
lemma store_inputs_buffers (h : HistoryManager) (ln : Int) (p r : String)
    (hnig : exit_commands.contains (pyStrip r) = false) :
    ((store_inputs h ln p (some r)).1).input_hist_raw
      = h.input_hist_raw ++ [pyRstrip r] ∧
    ((store_inputs h ln p (some r)).1).input_hist_parsed
      = h.input_hist_parsed ++ [pyRstrip p] := by
  unfold store_inputs
  dsimp only [Option.getD]
  rw [hnig]
  simp only [Bool.false_eq_true, if_false]
  have hb := maybeFlush_keeps_buffers (cacheRow h ln p r)
  cases hm : maybeFlush (cacheRow h ln p r) with
  | mk h2 b =>
    rw [hm] at hb
    cases b
    · exact ⟨hb.1, hb.2⟩
    · exact ⟨hb.1, hb.2⟩

lemma pyRange_singleton (a : Int) : pyRange a (a + 1) = [a] := by
  unfold pyRange
  have hone : (a + 1 - a).toNat = 1 := by omega
  rw [hone, show List.range 1 = [0] from rfl]
  simp

lemma getElem_append_singleton (l : List String) (x : String) :
    ((l ++ [x])[l.length]?).getD "" = x := by
  rw [List.getElem?_append_right (le_refl _)]
  simp

/-- The current-session read of the single line `n` when the selected
buffer holds exactly `n` earlier entries followed by `x`. -/
lemma get_history_line_n (h2 : HistoryManager) (raw : Bool) (n : Nat)
    (old : List String) (x : String)
    (hbuf : (if raw = true then h2.input_hist_raw else h2.input_hist_parsed)
      = old ++ [x])
    (hlen : old.length = n) :
    get_history h2 0 (n : Int) (some ((n : Int) + 1)) raw = [(0, (n : Int), x)] := by
  unfold get_history _get_hist_session
  rw [if_pos (Or.inl rfl)]
  dsimp only
  rw [hbuf]
  rw [if_neg (not_lt.mpr (Int.natCast_nonneg n))]
  rw [if_neg (by omega : ¬((n : Int) + 1 = 0))]
  rw [if_neg (by omega : ¬((n : Int) + 1 < 0))]
  rw [pyRange_singleton]
  simp only [List.map_cons, List.map_nil, Int.toNat_natCast]
  rw [← hlen, getElem_append_singleton]

/-- C2: after a non-ignored `store_inputs(n, p, r)` on a manager whose
buffers hold lines 1..n−1 (so each buffer has length `n`, counting the
seed entry — the shape produced by contiguous, increasing line numbers),
`get_history(0, n, n+1)` yields exactly one row: the right-stripped raw
source with `raw=True`, the right-stripped processed source with
`raw=False`. -/
theorem store_inputs_get_history_roundtrip (h : HistoryManager) (n : Nat)
    (p r : String) (hp : p ≠ "") (hr : r ≠ "")
    (hnig : exit_commands.contains (pyStrip r) = false)
    (hlenr : h.input_hist_raw.length = n) (hlenp : h.input_hist_parsed.length = n) :
    get_history (store_inputs h (n : Int) p (some r)).1 0 (n : Int)
        (some ((n : Int) + 1)) true = [(0, (n : Int), pyRstrip r)] ∧
    get_history (store_inputs h (n : Int) p (some r)).1 0 (n : Int)
        (some ((n : Int) + 1)) false = [(0, (n : Int), pyRstrip p)] := by
  obtain ⟨hbr, hbp⟩ := store_inputs_buffers h (n : Int) p r hnig
  constructor
  · exact get_history_line_n _ true n h.input_hist_raw (pyRstrip r)
      (by simpa using hbr) hlenr
  · exact get_history_line_n _ false n h.input_hist_parsed (pyRstrip p)
      (by simpa using hbp) hlenp

/-- C2 witness: line 1 on a fresh manager (seed buffers of length 1);
raw text `"x=1 "` comes back as `"x=1"`, processed `"x = 1 "` as
`"x = 1"`. -/
theorem store_inputs_get_history_roundtrip_witness :
    get_history (store_inputs (initHM 100) 1 "x = 1 " (some "x=1 ")).1 0 1
        (some 2) true = [(0, 1, "x=1")] ∧
    get_history (store_inputs (initHM 100) 1 "x = 1 " (some "x=1 ")).1 0 1
        (some 2) false = [(0, 1, "x = 1")] :=
  store_inputs_get_history_roundtrip (initHM 100) 1 "x = 1 " "x=1 "
    (by decide) (by decide) (by decide) rfl rfl

/-- (session, line) primary-key distinctness of two history rows. -/
def keyDistinct (a b : HistRow) : Prop :=
  ¬(a.session = b.session ∧ a.line = b.line)

def mkRow (sess : Int) (x : Int × String × String) : HistRow :=
  ⟨sess, x.1, x.2.1, x.2.2⟩

lemma insertHist_ok (tbl : List HistRow) (r : HistRow)
    (hfree : ∀ x ∈ tbl, keyDistinct x r) :
    insertHist tbl r = some (tbl ++ [r]) := by
  unfold insertHist
  have hany : tbl.any (fun x => x.session == r.session && x.line == r.line)
      = false := by
    rw [List.any_eq_false]
    intro x hx
    simpa [keyDistinct] using hfree x hx
  rw [hany]
  simp

/-- A batch of inserts all of whose rows have pairwise-distinct keys (also
with respect to the existing table) succeeds and appends in order. -/
lemma insertAllHist_append (rows : List HistRow) :
    ∀ tbl : List HistRow, (tbl ++ rows).Pairwise keyDistinct →
    insertAllHist tbl rows = some (tbl ++ rows) := by
  induction rows with
  | nil =>
    intro tbl _
    simp [insertAllHist]
  | cons r rs ih =>
    intro tbl hd
    have hfree : ∀ x ∈ tbl, keyDistinct x r := fun x hx =>
      (List.pairwise_append.mp hd).2.2 x hx r (List.mem_cons_self r rs)
    have hstep : insertAllHist tbl (r :: rs) = insertAllHist (tbl ++ [r]) rs := by
      simp only [insertAllHist, insertHist_ok tbl r hfree]
    have hd2 : ((tbl ++ [r]) ++ rs).Pairwise keyDistinct := by
      rw [List.append_assoc, List.singleton_append]
      exact hd
    rw [hstep, ih (tbl ++ [r]) hd2, List.append_assoc, List.singleton_append]

/-- A flush with nothing in the output table/cache and key-distinct input
rows succeeds and appends the cached rows to the history table in order. -/
lemma writeout_cache_ok (h : HistoryManager)
    (ho1 : h.db.output_history = []) (ho2 : h.db_output_cache = [])
    (hd : (h.db.history ++ h.db_input_cache).Pairwise keyDistinct) :
    writeout_cache h =
      ({ h with db := { history := h.db.history ++ h.db_input_cache,
                        output_history := [],
                        next_session := h.db.next_session },
                db_input_cache := [], db_output_cache := [] }, true) := by
  unfold writeout_cache
  rw [insertAllHist_append _ _ hd, ho1, ho2]
  rfl

/-- One non-ignored `store_inputs` step, under the invariant that nothing
is in the output table/cache and all keys stay distinct: it never raises,
the store plus the cache together grow by exactly the new row, and the
session number and (empty) output state are preserved — whether or not
the threshold made the cache flush. -/
lemma store_inputs_step (h : HistoryManager) (ln : Int) (p r : String)
    (hnig : exit_commands.contains (pyStrip r) = false)
    (ho1 : h.db.output_history = []) (ho2 : h.db_output_cache = [])
    (hd : (h.db.history ++ (h.db_input_cache
        ++ [(⟨h.session_number, ln, p, r⟩ : HistRow)])).Pairwise keyDistinct) :
    (store_inputs h ln p (some r)).2 = true ∧
    ((store_inputs h ln p (some r)).1).db.history
        ++ ((store_inputs h ln p (some r)).1).db_input_cache
      = h.db.history ++ h.db_input_cache
        ++ [(⟨h.session_number, ln, p, r⟩ : HistRow)] ∧
    ((store_inputs h ln p (some r)).1).session_number = h.session_number ∧
    ((store_inputs h ln p (some r)).1).db.output_history = [] ∧
    ((store_inputs h ln p (some r)).1).db_output_cache = [] := by
  unfold store_inputs
  dsimp only [Option.getD]
  rw [hnig]
  simp only [Bool.false_eq_true, if_false]
  by_cases hfl : (cacheRow h ln p r).db_cache_size
      ≤ ((cacheRow h ln p r).db_input_cache.length : Int)
  · have hmf : maybeFlush (cacheRow h ln p r) =
        ({ cacheRow h ln p r with
           db := { history := (cacheRow h ln p r).db.history
                     ++ (cacheRow h ln p r).db_input_cache,
                   output_history := [],
                   next_session := (cacheRow h ln p r).db.next_session },
           db_input_cache := [], db_output_cache := [] }, true) := by
      unfold maybeFlush
      rw [if_pos hfl, writeout_cache_ok (cacheRow h ln p r) ho1 ho2 hd]
    rw [hmf]
    refine ⟨rfl, ?_, rfl, rfl, rfl⟩
    simp [rotateAndBind, cacheRow, List.append_assoc]
  · have hmf : maybeFlush (cacheRow h ln p r) = (cacheRow h ln p r, true) := by
      unfold maybeFlush
      rw [if_neg hfl]
    rw [hmf]
    refine ⟨rfl, ?_, rfl, ho1, ho2⟩
    simp [rotateAndBind, cacheRow, List.append_assoc]

/-- Driving `store_inputs` over key-distinct, non-ignored rows in session 1:
no step raises, and afterwards the history table and the input cache
together hold exactly the old contents followed by the new rows, in
order — for any cache threshold. -/
lemma storeMany_spec (rows : List (Int × String × String)) :
    ∀ h : HistoryManager, h.session_number = 1 →
    h.db.output_history = [] → h.db_output_cache = [] →
    (∀ x ∈ rows, exit_commands.contains (pyStrip x.2.2) = false) →
    (h.db.history ++ h.db_input_cache ++ rows.map (mkRow 1)).Pairwise keyDistinct →
    (storeMany h rows).2 = true ∧
    ((storeMany h rows).1).db.history ++ ((storeMany h rows).1).db_input_cache
      = h.db.history ++ h.db_input_cache ++ rows.map (mkRow 1) ∧
    ((storeMany h rows).1).session_number = 1 ∧
    ((storeMany h rows).1).db.output_history = [] ∧
    ((storeMany h rows).1).db_output_cache = [] := by
  induction rows with
  | nil =>
    intro h h1 h2 h3 _ _
    exact ⟨rfl, by simp [storeMany], h1, h2, h3⟩
  | cons x rs ih =>
    intro h hses ho1 ho2 hnig hd
    have hrow : (⟨h.session_number, x.1, x.2.1, x.2.2⟩ : HistRow) = mkRow 1 x := by
      rw [hses]; rfl
    have hdx : (h.db.history ++ (h.db_input_cache
        ++ [(⟨h.session_number, x.1, x.2.1, x.2.2⟩ : HistRow)])).Pairwise
          keyDistinct := by
      rw [hrow, ← List.append_assoc]
      refine List.Pairwise.sublist (List.Sublist.append_left ?_ _) hd
      simp
    have hstep := store_inputs_step h x.1 x.2.1 x.2.2
      (hnig x (List.mem_cons_self x rs)) ho1 ho2 hdx
    have hsi : store_inputs h x.1 x.2.1 (some x.2.2)
        = ((store_inputs h x.1 x.2.1 (some x.2.2)).1, true) := by
      rw [← hstep.1]
    have hcomb : ((store_inputs h x.1 x.2.1 (some x.2.2)).1).db.history
        ++ ((store_inputs h x.1 x.2.1 (some x.2.2)).1).db_input_cache
        = h.db.history ++ h.db_input_cache ++ [mkRow 1 x] := by
      rw [hstep.2.1, hrow]
    have hnext : storeMany h (x :: rs)
        = storeMany (store_inputs h x.1 x.2.1 (some x.2.2)).1 rs := by
      simp only [storeMany]
      rw [hsi]
    have hdrest : (((store_inputs h x.1 x.2.1 (some x.2.2)).1).db.history
        ++ ((store_inputs h x.1 x.2.1 (some x.2.2)).1).db_input_cache
        ++ rs.map (mkRow 1)).Pairwise keyDistinct := by
      rw [hcomb, List.append_assoc, List.append_assoc, List.singleton_append]
      rw [List.append_assoc] at hd
      simpa using hd
    have hrest := ih (store_inputs h x.1 x.2.1 (some x.2.2)).1
      (hstep.2.2.1.trans hses) hstep.2.2.2.1 hstep.2.2.2.2
      (fun y hy => hnig y (List.mem_cons_of_mem x hy)) hdrest
    rw [hnext]
    refine ⟨hrest.1, ?_, hrest.2.2.1, hrest.2.2.2.1, hrest.2.2.2.2⟩
    rw [hrest.2.1, hcomb, List.append_assoc, List.append_assoc,
        List.singleton_append]
    simp [List.append_assoc]

/-- C9: store N rows (strictly increasing line numbers from 1, none
ignored) on a fresh manager with any cache threshold `T`, then flush:
nothing raises, the history table holds exactly the N rows in line-number
order, a session query retrieves all of them, and the final persisted
history is the same for every threshold `T'`. -/
theorem store_flush_roundtrip (T : Int) (rows : List (Int × String × String))
    (hinc : rows.Pairwise (fun a b => a.1 < b.1))
    (hpos : ∀ x ∈ rows, 1 ≤ x.1)
    (hnig : ∀ x ∈ rows, exit_commands.contains (pyStrip x.2.2) = false) :
    (storeMany (initHM T) rows).2 = true ∧
    (writeout_cache (storeMany (initHM T) rows).1).2 = true ∧
    (writeout_cache (storeMany (initHM T) rows).1).1.db.history
      = rows.map (mkRow 1) ∧
    queryHistory (writeout_cache (storeMany (initHM T) rows).1).1.db 1 1 none true
      = rows.map (fun x => ((1 : Int), x.1, x.2.2)) ∧
    (∀ T' : Int, (writeout_cache (storeMany (initHM T') rows).1).1.db.history
      = rows.map (mkRow 1)) := by
  have hdm : (rows.map (mkRow 1)).Pairwise keyDistinct := by
    rw [List.pairwise_map]
    refine hinc.imp ?_
    intro a b hab hcon
    exact absurd hcon.2 (by simpa [mkRow] using Int.ne_of_lt hab)
  have key : ∀ S : Int,
      (storeMany (initHM S) rows).2 = true ∧
      (writeout_cache (storeMany (initHM S) rows).1).2 = true ∧
      (writeout_cache (storeMany (initHM S) rows).1).1.db.history
        = rows.map (mkRow 1) := by
    intro S
    have hspec := storeMany_spec rows (initHM S) rfl rfl rfl hnig
      (by show ([] ++ [] ++ rows.map (mkRow 1)).Pairwise keyDistinct
          simpa using hdm)
    have hwo := writeout_cache_ok (storeMany (initHM S) rows).1
      hspec.2.2.2.1 hspec.2.2.2.2
      (by rw [hspec.2.1]; simpa using hdm)
    refine ⟨hspec.1, ?_, ?_⟩
    · rw [hwo]
    · rw [hwo]
      show ((storeMany (initHM S) rows).1).db.history
        ++ ((storeMany (initHM S) rows).1).db_input_cache = rows.map (mkRow 1)
      rw [hspec.2.1]
      show ([] : List HistRow) ++ ([] ++ rows.map (mkRow 1)) = rows.map (mkRow 1)
      simp
  have hq : queryHistory (writeout_cache (storeMany (initHM T) rows).1).1.db
      1 1 none true = rows.map (fun x => ((1 : Int), x.1, x.2.2)) := by
    unfold queryHistory
    rw [(key T).2.2]
    rw [List.filter_eq_self.mpr ?_]
    · rw [List.map_map]
      rfl
    · intro a ha
      obtain ⟨x, hx, rfl⟩ := List.mem_map.mp ha
      have h1 := hpos x hx
      simp [mkRow, h1]
  exact ⟨(key T).1, (key T).2.1, (key T).2.2, hq, fun T2 => (key T2).2.2⟩

/-- C9 witness: two rows, threshold 1 (flush on every append) versus
threshold 100 (both rows still cached until the final flush) — identical
persisted history, in line order. -/
theorem store_flush_roundtrip_witness :
    (writeout_cache (storeMany (initHM 1) [(1, "a", "A"), (2, "b", "B")]).1).1.db.history
      = [⟨1, 1, "a", "A"⟩, ⟨1, 2, "b", "B"⟩] ∧
    (writeout_cache (storeMany (initHM 100) [(1, "a", "A"), (2, "b", "B")]).1).1.db.history
      = [⟨1, 1, "a", "A"⟩, ⟨1, 2, "b", "B"⟩] := by
  have h := store_flush_roundtrip 1 [(1, "a", "A"), (2, "b", "B")]
    (by decide) (by decide) (by decide)
  exact ⟨h.2.2.1, h.2.2.2.2 100⟩
